import Mathlib

/-!
Verification of the dollshare storage + cryptography engine.

This file shallowly embeds the core of the repository (src/cryptography.rs,
src/storage/app_storage.rs, src/storage/mod.rs and the three backend
implementations under src/storage/backends/) into Lean 4 and settles the
frozen claims about it.

Machine bytes are modelled as `Nat` values, byte strings as `List Nat`.
Clock reads (`SystemTime::now()`) are passed explicitly as a `Nat` parameter
wherever the source calls them.  Randomness (`OsRng`) is passed explicitly as
the key/nonce byte lists that the source draws from it.
-/

/-- A byte string: the model of Rust `Vec<u8>` / `&[u8]`. -/
abbrev Bytes := List Nat

/-- Model of Rust `str::as_bytes` for the identifiers that reach the engine
(ASCII in practice); each character becomes its code point. -/
def strBytes (s : String) : Bytes := s.toList.map Char.toNat

/-- The error taxonomy of the engine (spec section 7).  The source uses
`anyhow::Error` values; the constructors below are the distinct error
conditions the embedded code can produce. -/
inductive AppError where
  | permissionDenied
  | notFound
  | unsupportedOperation
  | fileDoesNotExist
  | noLastAccessTime
  | invalidKeyLength
  | authenticationFailure
deriving DecidableEq, Repr

/-- Outcome of a Rust computation that may return a value, return an error,
or panic (as `split_at` does on an out-of-range index). -/
inductive RustOutcome (α : Type) where
  | ok (a : α)
  | err (e : AppError)
  | panicked
deriving DecidableEq, Repr

namespace Cryptography

/-- Nonce size of the cipher: `<ChaCha20Poly1305 as AeadCore>::NonceSize` is
12 bytes (`CRYPTO_NONCE_SIZE` in src/cryptography.rs). -/
def CRYPTO_NONCE_SIZE : Nat := 12

/-- Poly1305 authentication-tag size in bytes. -/
def TAG_SIZE : Nat := 16

/-- The decryption-key text handed to the caller.  Models the
base64url-unpadded encoding (`base64ct::Base64UrlUnpadded`) of the raw
32-byte key: the encoding is injective and exactly invertible on encoder
output, which is the only property the engine relies on, so the text is
modelled as a wrapper around the raw key bytes. -/
structure KeyText where
  bytes : Bytes
deriving DecidableEq, Repr

/-- Modelled from the spec: the ChaCha20 keystream of the external cipher
crate, a deterministic byte stream derived from key and nonce, here a simple
executable mixing function. -/
def ks (key nonce : Bytes) (i : Nat) : Nat :=
  (key.foldl (fun a b => a * 31 + b) 7 +
    nonce.foldl (fun a b => a * 37 + b) 11 + i * 131) % 256

/-- XOR a message with the keystream starting at stream position `i`. -/
def xorFrom (key nonce : Bytes) (i : Nat) : Bytes → Bytes
  | [] => []
  | b :: rest => (b ^^^ ks key nonce i) :: xorFrom key nonce (i + 1) rest

/-- Modelled from the spec: the Poly1305 authentication tag of the external
cipher crate — `TAG_SIZE` bytes deterministically derived from key, nonce,
associated data and message, here a simple executable mixing function. -/
def tagFn (key nonce aad msg : Bytes) : Bytes :=
  (List.range TAG_SIZE).map (fun i =>
    ((key ++ nonce ++ aad ++ msg).foldl
      (fun a b => (a * 65599 + b + 13) % 2147483629) (2166136261 + i * 97)) % 256)

/-- Modelled from the spec: AEAD sealing (the crate's `cipher.encrypt`):
the message encrypted under the keystream, with the authentication tag
appended. -/
def aeadSeal (key nonce msg aad : Bytes) : Bytes :=
  xorFrom key nonce 0 msg ++ tagFn key nonce aad msg

/-- Modelled from the spec: AEAD opening (the crate's `cipher.decrypt`):
split off the trailing tag, decrypt the body, recompute and compare the tag;
any mismatch (or a buffer too short to hold a tag) is an authentication
failure. -/
def aeadOpen (key nonce body aad : Bytes) : Except AppError Bytes :=
  if body.length < TAG_SIZE then .error .authenticationFailure
  else
    let ct := body.take (body.length - TAG_SIZE)
    let tag := body.drop (body.length - TAG_SIZE)
    let msg := xorFrom key nonce 0 ct
    if tagFn key nonce aad msg = tag then .ok msg
    else .error .authenticationFailure

/-- `Cryptography::encrypt` from src/cryptography.rs.  The fresh random key
and nonce drawn from `OsRng` are explicit parameters.  The nonce is spliced
onto the front of the sealed bytes; the key is returned base64url-encoded.
(The source returns `Result`, failing only on an internal cipher failure
that the model has no counterpart for.) -/
def encrypt (bytes aad key nonce : Bytes) : KeyText × Bytes :=
  (⟨key⟩, nonce ++ aeadSeal key nonce bytes aad)

/-- `Cryptography::decrypt` from src/cryptography.rs.  The leading
`split_at(CRYPTO_NONCE_SIZE)` panics when the input is shorter than the
nonce; then the key text is decoded and `new_from_slice` rejects keys that
are not 32 bytes; finally the AEAD seal is opened with the same aad. -/
def decrypt (bytes : Bytes) (key : KeyText) (aad : Bytes) : RustOutcome Bytes :=
  if bytes.length < CRYPTO_NONCE_SIZE then .panicked
  else
    let nonce := bytes.take CRYPTO_NONCE_SIZE
    let encryptedBytes := bytes.drop CRYPTO_NONCE_SIZE
    if key.bytes.length = 32 then
      match aeadOpen key.bytes nonce encryptedBytes aad with
      | .ok data => .ok data
      | .error e => .err e
    else .err .invalidKeyLength

/-- Which of the two hashing code paths `hash_bytes` takes. -/
inductive HashPath where
  | parallel
  | serial
deriving DecidableEq, Repr

/-- The branch condition of `Cryptography::hash_bytes` (src/cryptography.rs,
lines 68-72), exactly as written: `update_rayon` (the multi-threaded path)
when `bytes.len() < 0x100000`, plain `update` (serial) otherwise. -/
def hashPathFor (bytes : Bytes) : HashPath :=
  if bytes.length < 0x100000 then .parallel else .serial

/-- Split a list into chunks of 1024 elements, in order.  Models the way the
parallel hasher divides its input into independently processed blocks whose
digests are recombined in input order. -/
def chunk1024 {α : Type} : List α → List (List α)
  | [] => []
  | a :: rest => ((a :: rest).take 1024) :: chunk1024 ((a :: rest).drop 1024)
termination_by l => l.length
decreasing_by simp [List.length_drop]; omega

/-- Modelled from the spec: the serial `Hasher::update` of the external
blake3 crate absorbs the bytes into the hasher state in order; the state is
modelled as the list of absorbed bytes. -/
def hasherUpdate (st : Bytes) (bytes : Bytes) : Bytes := st ++ bytes

/-- Modelled from the spec: `Hasher::update_rayon` of the external blake3
crate splits the input into blocks that may be hashed on several threads and
recombines the block results in input order; the crate documents the result
as identical to `update`. -/
def hasherUpdateRayon (st : Bytes) (bytes : Bytes) : Bytes :=
  st ++ (chunk1024 bytes).flatten

/-- Hexadecimal digit for a value below 16. -/
def hexChar (n : Nat) : Char :=
  if n < 10 then Char.ofNat (48 + n) else Char.ofNat (87 + n)

/-- Modelled from the spec: `finalize().to_hex()` of the external blake3
crate — a deterministic 256-bit digest of the absorbed state, rendered as a
64-character hex string; the digest is a simple executable mixing function. -/
def finalizeHex (st : Bytes) : String :=
  String.mk (((List.range 32).map (fun i =>
    (st.foldl (fun a b => (a * 131 + b + 7) % 2147483629) (i + 977)) % 256)).flatMap
    (fun b => [hexChar (b / 16), hexChar (b % 16)]))

/-- `Cryptography::hash_bytes` with the code path made explicit: absorb the
content along the given path, then absorb the salt, then finalize to hex
(src/cryptography.rs lines 64-76). -/
def hashBytesWith (p : HashPath) (bytes : Bytes) (salt : String) : String :=
  let st : Bytes := []
  let st := match p with
    | .parallel => hasherUpdateRayon st bytes
    | .serial => hasherUpdate st bytes
  finalizeHex (hasherUpdate st (strBytes salt))

/-- `Cryptography::hash_bytes` from src/cryptography.rs: the path is chosen
by the length test, then content and salt are absorbed and finalized.
(The source wraps the result in `Ok`; it cannot fail.) -/
def hash_bytes (bytes : Bytes) (salt : String) : String :=
  hashBytesWith (hashPathFor bytes) bytes salt

end Cryptography

/-- A component of a Rust `Path`: a normal name, `..` (ParentDir), or a
root/prefix component (RootDir and Prefix are handled identically by the
source, so they share one constructor). -/
inductive PathComp where
  | normal (s : String)
  | parentDir
  | rootDir
deriving DecidableEq, Repr

/-- A Rust `Path`, as its list of components. -/
abbrev RPath := List PathComp

/-- `Path::starts_with` / list prefix test, component-wise. -/
def listStartsWith {α : Type} [DecidableEq α] : List α → List α → Bool
  | [], _ => true
  | _ :: _, [] => false
  | a :: as, b :: bs => decide (a = b) && listStartsWith as bs

/-- A path made only of normal components: no root/prefix and no `..`. -/
def validRPath (p : RPath) : Bool :=
  p.all fun c => match c with | .normal _ => true | _ => false

namespace MemoryStorage

/-- `MemoryStorage` (src/storage/backends/memory.rs): a map from path to
`(bytes, last_access)`, modelled as an association list with unique keys. -/
abbrev State := List (RPath × Bytes × Nat)

/-- Map lookup (`DashMap::get`). -/
def lookup (m : State) (p : RPath) : Option (Bytes × Nat) :=
  (m.find? (fun e => decide (e.1 = p))).map (·.2)

/-- Map removal (`DashMap::remove`, effect part). -/
def erase (m : State) (p : RPath) : State :=
  m.filter (fun e => !decide (e.1 = p))

/-- In-place refresh of an entry's access time. -/
def setAccessTime (m : State) (p : RPath) (now : Nat) : State :=
  m.map (fun e => if e.1 = p then (e.1, e.2.1, now) else e)

/-- `MemoryStorage::read`: on a hit, clone the data and set the entry's
access time to now; on a miss return none.  Infallible. -/
def read (m : State) (p : RPath) (now : Nat) : Option Bytes × State :=
  match lookup m p with
  | some (data, _) => (some data, setAccessTime m p now)
  | none => (none, m)

/-- `MemoryStorage::write`: insert `(bytes, now)`, replacing any previous
entry under the same path. -/
def write (m : State) (p : RPath) (data : Bytes) (now : Nat) : State :=
  (p, data, now) :: erase m p

/-- `MemoryStorage::delete`: remove and report whether something was there.
(Source name: `delete`; returns `Ok(map.remove(path).is_some())`.) -/
def delete (m : State) (p : RPath) : Bool × State :=
  ((lookup m p).isSome, erase m p)

/-- `MemoryStorage::exists` (named `existsAt` here because `exists` is a
Lean keyword): `contains_key`. -/
def existsAt (m : State) (p : RPath) : Bool :=
  (lookup m p).isSome

/-- `MemoryStorage::list`: all keys that start with the given prefix. -/
def list (m : State) (pre : RPath) : List RPath :=
  (m.filter (fun e => listStartsWith pre e.1)).map (·.1)

/-- `MemoryStorage::last_access`: the stored access time, if present. -/
def last_access (m : State) (p : RPath) : Option Nat :=
  (lookup m p).map (·.2)

end MemoryStorage

namespace FilesystemStorage

/-- `FilesystemStorage` (src/storage/backends/filesystem.rs): a
canonicalized base directory plus the native filesystem, modelled as a map
from absolute resolved path (list of names from the root) to
`(bytes, access_time)`. -/
structure State where
  base : List String
  files : List (List String × Bytes × Nat)
deriving DecidableEq, Repr

/-- The name of a normal component. -/
def normalName : PathComp → Option String
  | .normal s => some s
  | .parentDir => none
  | .rootDir => none

/-- The component loop of `FilesystemStorage::join_to_base`: a Prefix or
RootDir component, or a ParentDir component, fails with a
PermissionDenied-class error; normal components pass. -/
def checkComps : RPath → Except AppError Unit
  | [] => .ok ()
  | .rootDir :: _ => .error .permissionDenied
  | .parentDir :: _ => .error .permissionDenied
  | .normal _ :: rest => checkComps rest

/-- `FilesystemStorage::join_to_base`: validate every component, then join
onto the base directory (for a path of normal components the join is plain
concatenation). -/
def join_to_base (f : State) (p : RPath) : Except AppError (List String) :=
  match checkComps p with
  | .error e => .error e
  | .ok _ => .ok (f.base ++ p.filterMap normalName)

/-- Kernel-level resolution of `base_path.join(path)` for an UNVALIDATED
path, as the native calls in `read` see it: a root component restarts
resolution at the filesystem root, `..` pops a component, a normal component
descends.  (Symlinks are out of scope.) -/
def resolveJoin (base : List String) (p : RPath) : List String :=
  p.foldl (fun acc c =>
    match c with
    | .rootDir => []
    | .parentDir => acc.dropLast
    | .normal s => acc ++ [s]) base

/-- Native-file-map lookup. -/
def fileLookup (files : List (List String × Bytes × Nat)) (ap : List String) :
    Option (Bytes × Nat) :=
  (files.find? (fun e => decide (e.1 = ap))).map (·.2)

/-- Native-file-map removal. -/
def fileErase (files : List (List String × Bytes × Nat)) (ap : List String) :
    List (List String × Bytes × Nat) :=
  files.filter (fun e => !decide (e.1 = ap))

/-- Native-file-map access-time refresh (`File::set_times` with accessed =
now, modified preserved). -/
def fileSetAtime (files : List (List String × Bytes × Nat)) (ap : List String) (now : Nat) :
    List (List String × Bytes × Nat) :=
  files.map (fun e => if e.1 = ap then (e.1, e.2.1, now) else e)

/-- `FilesystemStorage::read`: NOTE — the source joins the path straight
onto the base (`self.base_path.join(path)`) without calling `join_to_base`,
so no component validation happens before the native `fs::metadata` /
`File::open` calls.  A missing file yields `Ok(None)`; a present file has
its access time forced to now and its bytes returned. -/
def read (f : State) (p : RPath) (now : Nat) :
    Except AppError (Option Bytes) × State :=
  let full := resolveJoin f.base p
  match fileLookup f.files full with
  | none => (.ok none, f)
  | some (data, _) => (.ok (some data), ⟨f.base, fileSetAtime f.files full now⟩)

/-- `FilesystemStorage::write`: validate via `join_to_base`, create parent
directories (a no-op on the file map), then fully overwrite the file.
Creation sets the access time to now. -/
def write (f : State) (p : RPath) (data : Bytes) (now : Nat) :
    Except AppError Unit × State :=
  match join_to_base f p with
  | .error e => (.error e, f)
  | .ok full => (.ok (), ⟨f.base, (full, data, now) :: fileErase f.files full⟩)

/-- `FilesystemStorage::delete`: validate via `join_to_base`; `remove_file`
returns true on removal and maps a NotFound error to `Ok(false)`. -/
def delete (f : State) (p : RPath) : Except AppError Bool × State :=
  match join_to_base f p with
  | .error e => (.error e, f)
  | .ok full =>
    match fileLookup f.files full with
    | some _ => (.ok true, ⟨f.base, fileErase f.files full⟩)
    | none => (.ok false, f)

/-- `FilesystemStorage::exists` (named `existsAt` here): validate via
`join_to_base`, then `fs::exists`. -/
def existsAt (f : State) (p : RPath) : Except AppError Bool :=
  match join_to_base f p with
  | .error e => .error e
  | .ok full => .ok (fileLookup f.files full).isSome

/-- `FilesystemStorage::list`: validate via `join_to_base`; `read_dir`
yields the direct children of the directory, each stripped of the base
prefix back to a relative path. -/
def list (f : State) (p : RPath) : Except AppError (List RPath) :=
  match join_to_base f p with
  | .error e => .error e
  | .ok full =>
    .ok ((f.files.filter (fun e =>
      listStartsWith full e.1 && decide (e.1.length = full.length + 1))).map
      (fun e => (e.1.drop f.base.length).map PathComp.normal))

/-- `FilesystemStorage::last_access`: validate via `join_to_base`;
`fs::metadata` on a missing path is an error that `?` propagates (unlike
`read`, absence here is NOT mapped to none). -/
def last_access (f : State) (p : RPath) : Except AppError (Option Nat) :=
  match join_to_base f p with
  | .error e => .error e
  | .ok full =>
    match fileLookup f.files full with
    | some (_, atime) => .ok (some atime)
    | none => .error .notFound

end FilesystemStorage

namespace S3Storage

/-- Modelled from the spec: the remote object store behind `S3Storage`
(src/storage/backends/s3.rs) holds one object per string key in a single
pre-provisioned bucket; the native AWS calls are modelled as operations on
that key-to-bytes map, with the source's error mapping (no-such-key to
none, not-found to false) applied around them. -/
abbrev State := List (String × Bytes)

/-- Text of a path component (`Path::to_str` fragment). -/
def compText : PathComp → String
  | .normal s => s
  | .parentDir => ".."
  | .rootDir => ""

/-- `path.to_str()`: the object key used for every S3 call. -/
def keyOf (p : RPath) : String :=
  String.intercalate "/" (p.map compText)

/-- Bucket lookup. -/
def lookup (b : State) (k : String) : Option Bytes :=
  (b.find? (fun e => decide (e.1 = k))).map (·.2)

/-- Bucket removal. -/
def erase (b : State) (k : String) : State :=
  b.filter (fun e => !decide (e.1 = k))

/-- `S3Storage::read`: `get_object`, mapping a no-such-key service error to
`Ok(None)`. -/
def read (b : State) (p : RPath) : Except AppError (Option Bytes) :=
  .ok (lookup b (keyOf p))

/-- `S3Storage::write`: `put_object`, a full overwrite of the key. -/
def write (b : State) (p : RPath) (data : Bytes) : Except AppError Unit × State :=
  (.ok (), (keyOf p, data) :: erase b (keyOf p))

/-- `S3Storage::delete`: returns `Ok(false)` without a delete call when the
key does not exist, otherwise `delete_object` then `Ok(true)`. -/
def delete (b : State) (p : RPath) : Except AppError Bool × State :=
  if (lookup b (keyOf p)).isSome then (.ok true, erase b (keyOf p))
  else (.ok false, b)

/-- `S3Storage::exists` (named `existsAt` here): `head_object`, mapping a
not-found service error to `Ok(false)`. -/
def existsAt (b : State) (p : RPath) : Except AppError Bool :=
  .ok (lookup b (keyOf p)).isSome

/-- `S3Storage::list`: `list_objects_v2` with the path as key prefix; each
returned key is re-read as a path (`PathBuf::from`). -/
def list (b : State) (p : RPath) : Except AppError (List RPath) :=
  .ok ((b.filter (fun e => (keyOf p).isPrefixOf e.1)).map
    (fun e => (e.1.splitOn "/").map PathComp.normal))

/-- `S3Storage::last_access`: always `bail!("Unsupported operation")`. -/
def last_access (_b : State) (_p : RPath) : Except AppError (Option Nat) :=
  .error .unsupportedOperation

end S3Storage

/-- `StorageProvider` (src/storage/mod.rs): the tagged union of the three
backend variants. -/
inductive StorageProvider where
  | memory (m : MemoryStorage.State)
  | filesystem (f : FilesystemStorage.State)
  | s3 (b : S3Storage.State)
deriving DecidableEq, Repr

namespace StorageProvider

/-- `StorageCapabilities::supports_expiry` per variant: Memory and
Filesystem report true, S3 reports false. -/
def supports_expiry : StorageProvider → Bool
  | .memory _ => true
  | .filesystem _ => true
  | .s3 _ => false

/-- Dispatch of `StorageOperations::read`. -/
def read : StorageProvider → RPath → Nat → Except AppError (Option Bytes) × StorageProvider
  | .memory m, p, now =>
    let (r, m') := MemoryStorage.read m p now
    (.ok r, .memory m')
  | .filesystem f, p, now =>
    let (r, f') := FilesystemStorage.read f p now
    (r, .filesystem f')
  | .s3 b, p, _ => (S3Storage.read b p, .s3 b)

/-- Dispatch of `StorageOperations::write`. -/
def write : StorageProvider → RPath → Bytes → Nat → Except AppError Unit × StorageProvider
  | .memory m, p, data, now => (.ok (), .memory (MemoryStorage.write m p data now))
  | .filesystem f, p, data, now =>
    let (r, f') := FilesystemStorage.write f p data now
    (r, .filesystem f')
  | .s3 b, p, data, _ =>
    let (r, b') := S3Storage.write b p data
    (r, .s3 b')

/-- Dispatch of `StorageOperations::delete`. -/
def delete : StorageProvider → RPath → Except AppError Bool × StorageProvider
  | .memory m, p =>
    let (r, m') := MemoryStorage.delete m p
    (.ok r, .memory m')
  | .filesystem f, p =>
    let (r, f') := FilesystemStorage.delete f p
    (r, .filesystem f')
  | .s3 b, p =>
    let (r, b') := S3Storage.delete b p
    (r, .s3 b')

/-- Dispatch of `StorageOperations::exists`. -/
def existsAt : StorageProvider → RPath → Except AppError Bool
  | .memory m, p => .ok (MemoryStorage.existsAt m p)
  | .filesystem f, p => FilesystemStorage.existsAt f p
  | .s3 b, p => S3Storage.existsAt b p

/-- Dispatch of `StorageOperations::list`. -/
def list : StorageProvider → RPath → Except AppError (List RPath)
  | .memory m, p => .ok (MemoryStorage.list m p)
  | .filesystem f, p => FilesystemStorage.list f p
  | .s3 b, p => S3Storage.list b p

/-- Dispatch of `StorageOperations::last_access`. -/
def last_access : StorageProvider → RPath → Except AppError (Option Nat)
  | .memory m, p => .ok (MemoryStorage.last_access m p)
  | .filesystem f, p => FilesystemStorage.last_access f p
  | .s3 b, p => S3Storage.last_access b p

end StorageProvider

/-- A backend call made by the expiry sweep, recorded for the frame
theorems. -/
inductive BackendCall where
  | listCall (p : RPath)
  | lastAccessCall (p : RPath)
  | deleteCall (p : RPath)
deriving DecidableEq, Repr

namespace AppStorage

/-- `AppStorage::upload_path`: the `uploads/` namespace root. -/
def upload_path : RPath := [.normal "uploads"]

/-- The backend path of an upload id: `upload_path().join(Path::new(id))`;
ids reaching the engine are single path segments. -/
def uploadFilePath (id : String) : RPath :=
  [.normal "uploads", .normal id]

/-- `AppStorage::save_upload`: encrypt with `aad = id` (fresh key and nonce
explicit), write the ciphertext under the upload path, return the key. -/
def save_upload (st : StorageProvider) (id : String) (bytes : Bytes)
    (key nonce : Bytes) (now : Nat) :
    Except AppError Cryptography.KeyText × StorageProvider :=
  let (k, ct) := Cryptography.encrypt bytes (strBytes id) key nonce
  match StorageProvider.write st (uploadFilePath id) ct now with
  | (.ok _, st') => (.ok k, st')
  | (.error e, st') => (.error e, st')

/-- `AppStorage::get_upload`: read the ciphertext (an absent object becomes
the "file does not exist" error via `.context`), then decrypt with the
supplied key and `aad = id`. -/
def get_upload (st : StorageProvider) (id : String) (key : Cryptography.KeyText)
    (now : Nat) : RustOutcome Bytes × StorageProvider :=
  match StorageProvider.read st (uploadFilePath id) now with
  | (.error e, st') => (.err e, st')
  | (.ok none, st') => (.err .fileDoesNotExist, st')
  | (.ok (some file), st') => (Cryptography.decrypt file key (strBytes id), st')

/-- `AppStorage::upload_exists`: existence only, never decrypts. -/
def upload_exists (st : StorageProvider) (id : String) : Except AppError Bool :=
  StorageProvider.existsAt st (uploadFilePath id)

/-- `AppStorage::delete_upload`: delete the backend entry, discarding the
boolean. -/
def delete_upload (st : StorageProvider) (id : String) :
    Except AppError Unit × StorageProvider :=
  match StorageProvider.delete st (uploadFilePath id) with
  | (.ok _, st') => (.ok (), st')
  | (.error e, st') => (.error e, st')

/-- `AppStorage::is_upload_expired`: false without a last-access check when
the backend does not support expiry; otherwise fetch the last access time
(bailing when it is missing) and compare `last_access + expire_after <=
now`.  The second component records the backend calls made. -/
def is_upload_expired (st : StorageProvider) (file : RPath) (expireAfter now : Nat) :
    Except AppError Bool × List BackendCall :=
  if st.supports_expiry = false then (.ok false, [])
  else
    match StorageProvider.last_access st file with
    | .error e => (.error e, [.lastAccessCall file])
    | .ok none => (.error .noLastAccessTime, [.lastAccessCall file])
    | .ok (some la) => (.ok (decide (la + expireAfter ≤ now)), [.lastAccessCall file])

/-- The `for path in paths` loop of `remove_all_expired_uploads`: check each
listed path and delete the expired ones; any error aborts the remainder of
the pass. -/
def sweepLoop (st : StorageProvider) (paths : List RPath) (expireAfter now : Nat) :
    Except AppError Unit × StorageProvider × List BackendCall :=
  match paths with
  | [] => (.ok (), st, [])
  | p :: rest =>
    let ie := is_upload_expired st p expireAfter now
    match ie.1 with
    | .error e => (.error e, st, ie.2)
    | .ok true =>
      let d := StorageProvider.delete st p
      match d.1 with
      | .ok _ =>
        let r := sweepLoop d.2 rest expireAfter now
        (r.1, r.2.1, ie.2 ++ .deleteCall p :: r.2.2)
      | .error e => (.error e, d.2, ie.2 ++ [.deleteCall p])
    | .ok false =>
      let r := sweepLoop st rest expireAfter now
      (r.1, r.2.1, ie.2 ++ r.2.2)

/-- `AppStorage::remove_all_expired_uploads`: return `Ok(())` immediately
when the backend does not support expiry; otherwise list the upload
namespace and run the sweep loop.  The third component records every
backend call made. -/
def remove_all_expired_uploads (st : StorageProvider) (expireAfter now : Nat) :
    Except AppError Unit × StorageProvider × List BackendCall :=
  if st.supports_expiry = false then (.ok (), st, [])
  else
    match StorageProvider.list st upload_path with
    | .error e => (.error e, st, [.listCall upload_path])
    | .ok paths =>
      let r := sweepLoop st paths expireAfter now
      (r.1, r.2.1, .listCall upload_path :: r.2.2)

end AppStorage

/-- The externally observable HTTP outcome of the upload-GET route. -/
inductive HttpResponse where
  | file (contentType cacheControl : String) (body : Bytes)
  | notFoundOrBadKey
  | panicked
deriving DecidableEq, Repr

/-- `DECRYPT_OR_NOT_FOUND_RESPONSE` (src/routes/uploads/get.rs): the single
constant response returned both for a missing file and for a decryption
failure. -/
def DECRYPT_OR_NOT_FOUND_RESPONSE : HttpResponse := .notFoundOrBadKey

/-- Modelled from the spec: MIME sniffing is an external collaborator (spec
section 1); `mime_guess::from_path(&id).first_or_octet_stream()` is
modelled as its octet-stream fallback. -/
def mimeGuess (_id : String) : String := "application/octet-stream"

/-- `get_upload_handler` (src/routes/uploads/get.rs): return the shared
not-found response when the upload does not exist (the `Result` of
`upload_exists` is unwrapped, so a backend error panics the handler task);
otherwise decrypt-and-fetch, serving the bytes on success and the same
shared not-found response on any error. -/
def get_upload_handler (st : StorageProvider) (id : String)
    (key : Cryptography.KeyText) (now : Nat) : HttpResponse × StorageProvider :=
  match AppStorage.upload_exists st id with
  | .error _ => (.panicked, st)
  | .ok false => (DECRYPT_OR_NOT_FOUND_RESPONSE, st)
  | .ok true =>
    match AppStorage.get_upload st id key now with
    | (.ok bytes, st') =>
      (.file (mimeGuess id) "private, max-age=1800, immutable" bytes, st')
    | (.err _, st') => (DECRYPT_OR_NOT_FOUND_RESPONSE, st')
    | (.panicked, st') => (.panicked, st')

/-- The exists-style presence test each variant's `delete` reports against:
a map lookup on the same key the delete removes. -/
def providerHasObject : StorageProvider → RPath → Bool
  | .memory m, p => (MemoryStorage.lookup m p).isSome
  | .filesystem f, p =>
    (FilesystemStorage.fileLookup f.files
      (f.base ++ p.filterMap FilesystemStorage.normalName)).isSome
  | .s3 b, p => (S3Storage.lookup b (S3Storage.keyOf p)).isSome

/-- The state each variant's `delete` leaves behind: the entry removed when
it was present, the state untouched when it was absent. -/
def providerAfterDelete : StorageProvider → RPath → StorageProvider
  | .memory m, p => .memory (MemoryStorage.erase m p)
  | .filesystem f, p =>
    match FilesystemStorage.fileLookup f.files
      (f.base ++ p.filterMap FilesystemStorage.normalName) with
    | some _ => .filesystem ⟨f.base, FilesystemStorage.fileErase f.files
        (f.base ++ p.filterMap FilesystemStorage.normalName)⟩
    | none => .filesystem f
  | .s3 b, p =>
    if (S3Storage.lookup b (S3Storage.keyOf p)).isSome then
      .s3 (S3Storage.erase b (S3Storage.keyOf p))
    else .s3 b

/-- The state the expiry sweep over the memory backend is expected to leave
behind after processing the listed paths: every entry whose key is listed
and whose access time satisfies the expiry test removed, everything else
kept. -/
def memSweepExpected (cur : MemoryStorage.State) (ps : List RPath) (t now : Nat) :
    MemoryStorage.State :=
  cur.filter (fun e => !(decide (e.1 ∈ ps) && decide (e.2.2 + t ≤ now)))

/-- The absolute file key that `join_to_base` produces for a valid
(all-normal-component) relative path. -/
def absKeyOf (base : List String) (p : RPath) : List String :=
  base ++ p.filterMap FilesystemStorage.normalName

/-- The file map the expiry sweep over the filesystem backend is expected to
leave behind after processing the listed relative paths: every file whose
absolute key is one of theirs and whose access time satisfies the expiry
test removed, everything else kept. -/
def fsSweepExpected (files : List (List String × Bytes × Nat)) (base : List String)
    (ps : List RPath) (t now : Nat) : List (List String × Bytes × Nat) :=
  files.filter (fun e => !(decide (e.1 ∈ ps.map (absKeyOf base)) && decide (e.2.2 + t ≤ now)))

namespace Cryptography

theorem xorFrom_length (key nonce : Bytes) (i : Nat) (l : Bytes) :
    (xorFrom key nonce i l).length = l.length := by
  induction l generalizing i with
  | nil => rfl
  | cons b rest ih => simp [xorFrom, ih]

theorem xorFrom_xorFrom (key nonce : Bytes) (i : Nat) (l : Bytes) :
    xorFrom key nonce i (xorFrom key nonce i l) = l := by
  induction l generalizing i with
  | nil => rfl
  | cons b rest ih =>
    simp [xorFrom, ih, Nat.xor_assoc]

theorem tagFn_length (key nonce aad msg : Bytes) :
    (tagFn key nonce aad msg).length = TAG_SIZE := by
  simp [tagFn]

theorem aeadSeal_length (key nonce msg aad : Bytes) :
    (aeadSeal key nonce msg aad).length = msg.length + TAG_SIZE := by
  simp [aeadSeal, xorFrom_length, tagFn_length]

theorem aeadOpen_aeadSeal (key nonce msg aad : Bytes) :
    aeadOpen key nonce (aeadSeal key nonce msg aad) aad = .ok msg := by
  have hlen : (aeadSeal key nonce msg aad).length = msg.length + TAG_SIZE :=
    aeadSeal_length key nonce msg aad
  have hxl : (xorFrom key nonce 0 msg).length = msg.length := xorFrom_length _ _ _ _
  have hnotlt : ¬ (aeadSeal key nonce msg aad).length < TAG_SIZE := by
    rw [hlen]; omega
  have hsub : (aeadSeal key nonce msg aad).length - TAG_SIZE = msg.length := by
    rw [hlen]; omega
  have htake : (aeadSeal key nonce msg aad).take (msg.length) = xorFrom key nonce 0 msg := by
    unfold aeadSeal
    exact List.take_left' hxl
  have hdrop : (aeadSeal key nonce msg aad).drop (msg.length) = tagFn key nonce aad msg := by
    unfold aeadSeal
    exact List.drop_left' hxl
  unfold aeadOpen
  rw [if_neg hnotlt, hsub, htake, hdrop]
  simp [xorFrom_xorFrom]

/-- Shared round-trip lemma: decrypting the output of `encrypt` with the
returned key and the same aad recovers the plaintext, for any 32-byte key
and 12-byte nonce. -/
theorem decrypt_encrypt (bytes aad key nonce : Bytes)
    (hk : key.length = 32) (hn : nonce.length = CRYPTO_NONCE_SIZE) :
    decrypt (encrypt bytes aad key nonce).2 (encrypt bytes aad key nonce).1 aad
      = .ok bytes := by
  have hct : (encrypt bytes aad key nonce).2
      = nonce ++ aeadSeal key nonce bytes aad := rfl
  have hkey : (encrypt bytes aad key nonce).1 = ⟨key⟩ := rfl
  have hlen : (nonce ++ aeadSeal key nonce bytes aad).length
      = CRYPTO_NONCE_SIZE + (bytes.length + TAG_SIZE) := by
    simp [List.length_append, hn, aeadSeal_length]
  have hnotlt : ¬ (nonce ++ aeadSeal key nonce bytes aad).length < CRYPTO_NONCE_SIZE := by
    rw [hlen]; omega
  have htake : (nonce ++ aeadSeal key nonce bytes aad).take CRYPTO_NONCE_SIZE = nonce :=
    List.take_left' hn
  have hdrop : (nonce ++ aeadSeal key nonce bytes aad).drop CRYPTO_NONCE_SIZE
      = aeadSeal key nonce bytes aad :=
    List.drop_left' hn
  rw [hct, hkey]
  unfold decrypt
  rw [if_neg hnotlt]
  simp only [htake, hdrop, hk, aeadOpen_aeadSeal]
  simp

end Cryptography

/-- C1: for every byte sequence and associated data, if `encrypt` succeeds
with a well-formed fresh key (32 bytes) and nonce (12 bytes) drawn from the
RNG, then `decrypt` on the produced ciphertext with the returned key and the
same associated data succeeds and returns exactly the original bytes. -/
theorem c1_encrypt_decrypt_roundtrip (bytes aad key nonce : Bytes)
    (hk : key.length = 32) (hn : nonce.length = Cryptography.CRYPTO_NONCE_SIZE) :
    Cryptography.decrypt (Cryptography.encrypt bytes aad key nonce).2
      (Cryptography.encrypt bytes aad key nonce).1 aad = .ok bytes :=
  Cryptography.decrypt_encrypt bytes aad key nonce hk hn

/-- Witness for C1 at a concrete plaintext, aad, key and nonce. -/
theorem c1_encrypt_decrypt_roundtrip_witness :
    (List.range 32).length = 32 ∧
    (List.range 12).length = Cryptography.CRYPTO_NONCE_SIZE ∧
    Cryptography.decrypt
      (Cryptography.encrypt [1, 2, 3] [10] (List.range 32) (List.range 12)).2
      (Cryptography.encrypt [1, 2, 3] [10] (List.range 32) (List.range 12)).1
      [10] = .ok [1, 2, 3] :=
  ⟨rfl, rfl, c1_encrypt_decrypt_roundtrip [1, 2, 3] [10] (List.range 32)
    (List.range 12) rfl rfl⟩

/-- C4: the claim says `hash_bytes` takes the multi-threaded path exactly
when the input is at or above 1 MiB; the code does the opposite.  This
theorem characterizes the branch as written: the `update_rayon`
(multi-threaded) path is selected exactly when the length is BELOW
`0x100000` — also contradicting the function's own doc comment, which says
multiple threads are used when the input is beyond a certain length. -/
theorem c4_hash_path_inverted (bytes : Bytes) :
    Cryptography.hashPathFor bytes = .parallel ↔ bytes.length < 0x100000 := by
  unfold Cryptography.hashPathFor
  split
  · simp_all
  · simp_all

theorem chunk1024_flatten_bound {α : Type} :
    ∀ (n : Nat) (l : List α), l.length ≤ n → (Cryptography.chunk1024 l).flatten = l := by
  intro n
  induction n with
  | zero =>
    intro l h
    match l with
    | [] => simp [Cryptography.chunk1024]
    | a :: rest => simp at h
  | succ n ih =>
    intro l h
    match l with
    | [] => simp [Cryptography.chunk1024]
    | a :: rest =>
      have hdl : ((a :: rest).drop 1024).length ≤ n := by
        simp only [List.length_drop, List.length_cons]
        simp at h
        omega
      simp only [Cryptography.chunk1024, List.flatten_cons, ih _ hdl, List.take_append_drop]

/-- Chunking a list into 1024-element blocks and concatenating the blocks
in order restores the list: the parallel absorption path processes the same
bytes in the same order as the serial one. -/
theorem chunk1024_flatten {α : Type} (l : List α) :
    (Cryptography.chunk1024 l).flatten = l :=
  chunk1024_flatten_bound l.length l le_rfl

/-- C5: `hash_bytes` is a pure function of content and salt — repeated
calls agree — and its result does not depend on whether the parallel
(`update_rayon`) or serial (`update`) absorption path runs: the two paths
are extensionally equal. -/
theorem c5_hash_path_independent (p q : Cryptography.HashPath) (bytes : Bytes)
    (salt : String) :
    Cryptography.hashBytesWith p bytes salt = Cryptography.hashBytesWith q bytes salt := by
  cases p <;> cases q <;>
    simp [Cryptography.hashBytesWith, Cryptography.hasherUpdateRayon,
      Cryptography.hasherUpdate, chunk1024_flatten]

/-- C10: `decrypt` on any input shorter than the 12-byte nonce size panics
at the leading `split_at` instead of returning an error: the error branch
does not cover short or truncated ciphertexts. -/
theorem c10_decrypt_short_input_panics (bytes : Bytes) (key : Cryptography.KeyText)
    (aad : Bytes) (h : bytes.length < Cryptography.CRYPTO_NONCE_SIZE) :
    Cryptography.decrypt bytes key aad = .panicked := by
  unfold Cryptography.decrypt
  rw [if_pos h]

/-- Witness for C10 at the empty input. -/
theorem c10_decrypt_short_input_panics_witness :
    ([] : Bytes).length < Cryptography.CRYPTO_NONCE_SIZE ∧
    Cryptography.decrypt [] ⟨[]⟩ [] = .panicked :=
  ⟨by decide, c10_decrypt_short_input_panics [] ⟨[]⟩ [] (by decide)⟩

/-- C2: the externally observable outcome of fetching an upload is the same
when the stored object is absent as when it is present but decryption fails
with any error: both collapse to the shared `DECRYPT_OR_NOT_FOUND_RESPONSE`
of the GET route, so no observer of the route's result can distinguish the
two cases. -/
theorem c2_absent_and_bad_key_indistinguishable (st1 st2 : StorageProvider)
    (id : String) (k1 k2 : Cryptography.KeyText) (now1 now2 : Nat) (e : AppError)
    (h1 : AppStorage.upload_exists st1 id = .ok false)
    (h2 : AppStorage.upload_exists st2 id = .ok true)
    (h3 : (AppStorage.get_upload st2 id k2 now2).1 = .err e) :
    (get_upload_handler st1 id k1 now1).1 = (get_upload_handler st2 id k2 now2).1 ∧
    (get_upload_handler st1 id k1 now1).1 = DECRYPT_OR_NOT_FOUND_RESPONSE := by
  unfold get_upload_handler
  rw [h1, h2]
  rcases hg : AppStorage.get_upload st2 id k2 now2 with ⟨r, s⟩
  rw [hg] at h3
  cases r with
  | ok bytes => simp at h3
  | err e' => exact ⟨rfl, rfl⟩
  | panicked => simp at h3

/-- Witness for C2: an empty memory backend versus a memory backend holding
an object under id "x" whose decryption with the supplied key fails. -/
theorem c2_absent_and_bad_key_indistinguishable_witness :
    AppStorage.upload_exists (.memory []) "x" = .ok false ∧
    AppStorage.upload_exists
      (.memory [([.normal "uploads", .normal "x"], List.replicate 12 0, 0)]) "x" = .ok true ∧
    (AppStorage.get_upload
      (.memory [([.normal "uploads", .normal "x"], List.replicate 12 0, 0)]) "x"
      ⟨List.replicate 32 0⟩ 5).1 = .err .authenticationFailure ∧
    (get_upload_handler (.memory []) "x" ⟨List.replicate 32 0⟩ 5).1 =
      (get_upload_handler
        (.memory [([.normal "uploads", .normal "x"], List.replicate 12 0, 0)]) "x"
        ⟨List.replicate 32 0⟩ 5).1 :=
  ⟨rfl, rfl, rfl,
    (c2_absent_and_bad_key_indistinguishable (.memory [])
      (.memory [([.normal "uploads", .normal "x"], List.replicate 12 0, 0)]) "x"
      ⟨List.replicate 32 0⟩ ⟨List.replicate 32 0⟩ 5 5 .authenticationFailure
      rfl rfl rfl).1⟩

/-- C3: the claim says every backend operation rejects a path containing a
root or parent-directory component with a PermissionDenied-class error
before any native call.  `FilesystemStorage::read` does not: it joins the
raw path straight onto the base directory without `join_to_base`, so the
native calls run.  Concretely, with base directory `/data` and a file at
`/secret` (outside the base), reading the path `../secret` succeeds,
returns the out-of-base file's bytes and refreshes its access time instead
of failing with PermissionDenied. -/
theorem c3_filesystem_read_skips_path_check :
    FilesystemStorage.read ⟨["data"], [(["secret"], [9, 9], 0)]⟩
      [.parentDir, .normal "secret"] 5
      = (.ok (some [9, 9]), ⟨["data"], [(["secret"], [9, 9], 5)]⟩) := rfl

/-- C6: when the backend reports `supports_expiry = false`, the expiry
sweep returns success, leaves the backend state unchanged, and makes no
backend call at all (no list, no last-access, no delete), regardless of the
expiry window or the clock. -/
theorem c6_sweep_noop_without_expiry_support (st : StorageProvider)
    (expireAfter now : Nat) (h : st.supports_expiry = false) :
    AppStorage.remove_all_expired_uploads st expireAfter now
      = (.ok (), st, ([] : List BackendCall)) := by
  unfold AppStorage.remove_all_expired_uploads
  simp [h]

/-- Witness for C6: an S3 backend holding an arbitrarily old object; the
sweep with a zero expiry window still does nothing. -/
theorem c6_sweep_noop_without_expiry_support_witness :
    StorageProvider.supports_expiry (.s3 [("uploads/old", [1, 2, 3])]) = false ∧
    AppStorage.remove_all_expired_uploads (.s3 [("uploads/old", [1, 2, 3])]) 0 1000000
      = (.ok (), .s3 [("uploads/old", [1, 2, 3])], ([] : List BackendCall)) :=
  ⟨rfl, c6_sweep_noop_without_expiry_support (.s3 [("uploads/old", [1, 2, 3])])
    0 1000000 rfl⟩

theorem checkComps_ok_of_valid (p : RPath) (h : validRPath p = true) :
    FilesystemStorage.checkComps p = .ok () := by
  induction p with
  | nil => rfl
  | cons c rest ih =>
    cases c with
    | normal s =>
      simp only [validRPath, List.all_cons, Bool.and_eq_true] at h
      exact ih h.2
    | parentDir => simp [validRPath] at h
    | rootDir => simp [validRPath] at h

theorem join_to_base_ok_of_valid (f : FilesystemStorage.State) (p : RPath)
    (h : validRPath p = true) :
    FilesystemStorage.join_to_base f p
      = .ok (f.base ++ p.filterMap FilesystemStorage.normalName) := by
  unfold FilesystemStorage.join_to_base
  rw [checkComps_ok_of_valid p h]

/-- C8: on every backend variant, `delete` of a valid path never errors: it
returns true exactly when an object existed at the path (removing it) and
false when the path was already absent (leaving the state untouched). -/
theorem c8_delete_reports_presence_never_errors (st : StorageProvider) (p : RPath)
    (h : validRPath p = true) :
    StorageProvider.delete st p = (.ok (providerHasObject st p), providerAfterDelete st p) := by
  cases st with
  | memory m => rfl
  | filesystem f =>
    simp only [StorageProvider.delete, FilesystemStorage.delete,
      join_to_base_ok_of_valid f p h, providerHasObject, providerAfterDelete]
    cases hfl : FilesystemStorage.fileLookup f.files
        (f.base ++ p.filterMap FilesystemStorage.normalName) with
    | some v => simp
    | none => simp
  | s3 b =>
    simp only [StorageProvider.delete, S3Storage.delete, providerHasObject,
      providerAfterDelete]
    by_cases hb : (S3Storage.lookup b (S3Storage.keyOf p)).isSome
    · simp [hb]
    · simp [hb]

/-- Witness for C8: deleting a present key returns true and removes it;
deleting it again (now absent) returns false without an error. -/
theorem c8_delete_reports_presence_never_errors_witness :
    validRPath [.normal "uploads", .normal "a"] = true ∧
    StorageProvider.delete (.memory [([.normal "uploads", .normal "a"], [1], 0)])
      [.normal "uploads", .normal "a"] = (.ok true, .memory []) ∧
    StorageProvider.delete (.memory ([] : MemoryStorage.State))
      [.normal "uploads", .normal "a"] = (.ok false, .memory []) :=
  ⟨rfl,
    by rw [c8_delete_reports_presence_never_errors
      (.memory [([.normal "uploads", .normal "a"], [1], 0)])
      [.normal "uploads", .normal "a"] rfl]; exact rfl,
    by rw [c8_delete_reports_presence_never_errors
      (.memory ([] : MemoryStorage.State))
      [.normal "uploads", .normal "a"] rfl]; exact rfl⟩

namespace MemoryStorage

theorem lookup_write_self (m : State) (p : RPath) (data : Bytes) (now : Nat) :
    lookup (write m p data now) p = some (data, now) := by
  simp [lookup, write, List.find?]

theorem lookup_erase_ne (m : State) (p q : RPath) (h : q ≠ p) :
    lookup (erase m p) q = lookup m q := by
  induction m with
  | nil => rfl
  | cons a rest ih =>
    unfold lookup erase at *
    by_cases hap : a.1 = p
    · rw [List.filter_cons_of_neg (by simp [hap])]
      rw [List.find?_cons_of_neg _
        (by simp only [decide_eq_true_eq]; rw [hap]; exact fun hq => h hq.symm)]
      exact ih
    · rw [List.filter_cons_of_pos (by simp [hap])]
      by_cases haq : a.1 = q
      · rw [List.find?_cons_of_pos _ (by simp [haq]),
          List.find?_cons_of_pos _ (by simp [haq])]
      · rw [List.find?_cons_of_neg _ (by simp [haq]),
          List.find?_cons_of_neg _ (by simp [haq])]
        exact ih

theorem lookup_erase_self (m : State) (p : RPath) :
    lookup (erase m p) p = none := by
  induction m with
  | nil => rfl
  | cons a rest ih =>
    unfold lookup erase at *
    by_cases hap : a.1 = p
    · rw [List.filter_cons_of_neg (by simp [hap])]
      exact ih
    · rw [List.filter_cons_of_pos (by simp [hap])]
      rw [List.find?_cons_of_neg _ (by simp [hap])]
      exact ih

theorem mem_of_lookup (m : State) (p : RPath) (v : Bytes × Nat)
    (h : lookup m p = some v) : (p, v) ∈ m := by
  induction m with
  | nil => simp [lookup] at h
  | cons a rest ih =>
    unfold lookup at h
    by_cases hap : a.1 = p
    · rw [List.find?_cons_of_pos _ (by simp [hap])] at h
      simp at h
      have hae : a = (p, v) := by
        cases a with
        | mk a1 a2 => simp at hap h; rw [hap, h]
      exact List.mem_cons.mpr (Or.inl hae.symm)
    · rw [List.find?_cons_of_neg _ (by simp [hap])] at h
      exact List.mem_cons_of_mem _ (ih h)

theorem lookup_isSome_of_key_mem (m : State) (p : RPath)
    (h : p ∈ m.map (·.1)) : (lookup m p).isSome := by
  induction m with
  | nil => simp at h
  | cons a rest ih =>
    unfold lookup
    by_cases hap : a.1 = p
    · rw [List.find?_cons_of_pos _ (by simp [hap])]
      rfl
    · rw [List.find?_cons_of_neg _ (by simp [hap])]
      apply ih
      simp at h
      rcases h with h | h
      · exact absurd h.symm hap
      · simpa using h

theorem eq_of_mem_keys_nodup (m : State) (hnd : (m.map (·.1)).Nodup)
    {e f : RPath × Bytes × Nat} (he : e ∈ m) (hf : f ∈ m) (hk : e.1 = f.1) :
    e = f := by
  induction m with
  | nil => simp at he
  | cons a rest ih =>
    simp only [List.map_cons, List.nodup_cons] at hnd
    rcases List.mem_cons.mp he with rfl | he'
    · rcases List.mem_cons.mp hf with rfl | hf'
      · rfl
      · exact absurd (hk ▸ List.mem_map_of_mem (·.1) hf') hnd.1
    · rcases List.mem_cons.mp hf with rfl | hf'
      · exact absurd (hk ▸ List.mem_map_of_mem (·.1) he') hnd.1
      · exact ih hnd.2 he' hf'

theorem lookup_filter_of_pass (m : State) (p : RPath) (v : Bytes × Nat)
    (f : RPath × Bytes × Nat → Bool) (hl : lookup m p = some v)
    (hf : f (p, v) = true) :
    lookup (m.filter f) p = some v := by
  induction m with
  | nil => simp [lookup] at hl
  | cons a rest ih =>
    unfold lookup at *
    by_cases hap : a.1 = p
    · rw [List.find?_cons_of_pos _ (by simp [hap])] at hl
      simp at hl
      have hae : a = (p, v) := by
        cases a with
        | mk a1 a2 => simp at hap hl; rw [hap, hl]
      rw [List.filter_cons_of_pos (by rw [hae]; exact hf)]
      rw [List.find?_cons_of_pos _ (by simp [hap])]
      simp [hl]
    · rw [List.find?_cons_of_neg _ (by simp [hap])] at hl
      by_cases hfa : f a = true
      · rw [List.filter_cons_of_pos hfa]
        rw [List.find?_cons_of_neg _ (by simp [hap])]
        exact ih hl
      · rw [List.filter_cons_of_neg (by simp [hfa])]
        exact ih hl

end MemoryStorage

/-- C9: over the memory backend, saving twice under the same id fully
replaces the stored object with the second ciphertext (last write wins):
the stored bytes are exactly the second encryption's output, fetching with
the second key returns exactly the second plaintext, and the first key —
assuming it fails to authenticate against the second ciphertext, which any
distinct fresh key does except with negligible probability — no longer
decrypts the stored object. -/
theorem c9_second_save_fully_replaces (m : MemoryStorage.State) (id : String)
    (b1 b2 key1 nonce1 key2 nonce2 : Bytes) (now1 now2 now3 : Nat)
    (hk2 : key2.length = 32) (hn2 : nonce2.length = Cryptography.CRYPTO_NONCE_SIZE)
    (hfail : Cryptography.decrypt
      (Cryptography.encrypt b2 (strBytes id) key2 nonce2).2 ⟨key1⟩ (strBytes id)
      = .err .authenticationFailure) :
    (StorageProvider.read
        (AppStorage.save_upload
          (AppStorage.save_upload (.memory m) id b1 key1 nonce1 now1).2
          id b2 key2 nonce2 now2).2
        (AppStorage.uploadFilePath id) now3).1
      = .ok (some (Cryptography.encrypt b2 (strBytes id) key2 nonce2).2) ∧
    (AppStorage.get_upload
        (AppStorage.save_upload
          (AppStorage.save_upload (.memory m) id b1 key1 nonce1 now1).2
          id b2 key2 nonce2 now2).2
        id (Cryptography.encrypt b2 (strBytes id) key2 nonce2).1 now3).1
      = .ok b2 ∧
    (AppStorage.get_upload
        (AppStorage.save_upload
          (AppStorage.save_upload (.memory m) id b1 key1 nonce1 now1).2
          id b2 key2 nonce2 now2).2
        id ⟨key1⟩ now3).1
      = .err .authenticationFailure := by
  have hst : (AppStorage.save_upload
      (AppStorage.save_upload (.memory m) id b1 key1 nonce1 now1).2
      id b2 key2 nonce2 now2).2
      = .memory (MemoryStorage.write
          (MemoryStorage.write m (AppStorage.uploadFilePath id)
            (Cryptography.encrypt b1 (strBytes id) key1 nonce1).2 now1)
          (AppStorage.uploadFilePath id)
          (Cryptography.encrypt b2 (strBytes id) key2 nonce2).2 now2) := rfl
  have hlook := MemoryStorage.lookup_write_self
    (MemoryStorage.write m (AppStorage.uploadFilePath id)
      (Cryptography.encrypt b1 (strBytes id) key1 nonce1).2 now1)
    (AppStorage.uploadFilePath id)
    (Cryptography.encrypt b2 (strBytes id) key2 nonce2).2 now2
  refine ⟨?_, ?_, ?_⟩
  · rw [hst]
    simp [StorageProvider.read, MemoryStorage.read, hlook]
  · rw [hst]
    simp [AppStorage.get_upload, StorageProvider.read, MemoryStorage.read, hlook,
      Cryptography.decrypt_encrypt b2 (strBytes id) key2 nonce2 hk2 hn2]
  · rw [hst]
    simp [AppStorage.get_upload, StorageProvider.read, MemoryStorage.read, hlook,
      hfail]

set_option maxRecDepth 8000 in
/-- Witness for C9 with two distinct concrete keys: the second key recovers
the second plaintext, the first key fails. -/
theorem c9_second_save_fully_replaces_witness :
    (List.replicate 32 1 : Bytes).length = 32 ∧
    (List.range 12).length = Cryptography.CRYPTO_NONCE_SIZE ∧
    Cryptography.decrypt
      (Cryptography.encrypt [2, 3] (strBytes "a") (List.replicate 32 1) (List.range 12)).2
      ⟨List.replicate 32 0⟩ (strBytes "a") = .err .authenticationFailure ∧
    (AppStorage.get_upload
        (AppStorage.save_upload
          (AppStorage.save_upload (.memory []) "a" [1] (List.replicate 32 0)
            (List.range 12) 1).2
          "a" [2, 3] (List.replicate 32 1) (List.range 12) 2).2
        "a" (Cryptography.encrypt [2, 3] (strBytes "a") (List.replicate 32 1)
          (List.range 12)).1 3).1
      = .ok [2, 3] ∧
    (AppStorage.get_upload
        (AppStorage.save_upload
          (AppStorage.save_upload (.memory []) "a" [1] (List.replicate 32 0)
            (List.range 12) 1).2
          "a" [2, 3] (List.replicate 32 1) (List.range 12) 2).2
        "a" ⟨List.replicate 32 0⟩ 3).1
      = .err .authenticationFailure :=
  ⟨rfl, rfl, rfl,
    (c9_second_save_fully_replaces [] "a" [1] [2, 3] (List.replicate 32 0)
      (List.range 12) (List.replicate 32 1) (List.range 12) 1 2 3 rfl rfl rfl).2.1,
    (c9_second_save_fully_replaces [] "a" [1] [2, 3] (List.replicate 32 0)
      (List.range 12) (List.replicate 32 1) (List.range 12) 1 2 3 rfl rfl rfl).2.2⟩

namespace MemoryStorage

theorem keys_erase_nodup (m : State) (p : RPath)
    (hnd : (m.map (·.1)).Nodup) : ((erase m p).map (·.1)).Nodup :=
  List.Nodup.sublist ((List.filter_sublist m).map (·.1)) hnd

theorem is_upload_expired_memory (cur : State) (p : RPath) (t now la : Nat) (b : Bytes)
    (hl : lookup cur p = some (b, la)) :
    AppStorage.is_upload_expired (.memory cur) p t now
      = (.ok (decide (la + t ≤ now)), [.lastAccessCall p]) := by
  unfold AppStorage.is_upload_expired
  simp [StorageProvider.supports_expiry, StorageProvider.last_access,
    last_access, hl]

theorem sweepLoop_cons_expired (cur : State) (p : RPath) (rest : List RPath)
    (t now la : Nat) (b : Bytes) (hl : lookup cur p = some (b, la)) (hle : la + t ≤ now) :
    AppStorage.sweepLoop (.memory cur) (p :: rest) t now
      = ((AppStorage.sweepLoop (.memory (erase cur p)) rest t now).1,
         (AppStorage.sweepLoop (.memory (erase cur p)) rest t now).2.1,
         .lastAccessCall p :: .deleteCall p ::
           (AppStorage.sweepLoop (.memory (erase cur p)) rest t now).2.2) := by
  have hie := is_upload_expired_memory cur p t now la b hl
  rw [decide_eq_true hle] at hie
  simp only [AppStorage.sweepLoop, hie]
  simp [StorageProvider.delete, delete]

theorem sweepLoop_cons_live (cur : State) (p : RPath) (rest : List RPath)
    (t now la : Nat) (b : Bytes) (hl : lookup cur p = some (b, la)) (hnle : ¬ la + t ≤ now) :
    AppStorage.sweepLoop (.memory cur) (p :: rest) t now
      = ((AppStorage.sweepLoop (.memory cur) rest t now).1,
         (AppStorage.sweepLoop (.memory cur) rest t now).2.1,
         .lastAccessCall p :: (AppStorage.sweepLoop (.memory cur) rest t now).2.2) := by
  have hie := is_upload_expired_memory cur p t now la b hl
  rw [decide_eq_false hnle] at hie
  simp only [AppStorage.sweepLoop, hie]
  simp

theorem memSweepExpected_erase_expired (cur : State) (p : RPath)
    (rest : List RPath) (t now la : Nat) (b : Bytes) (hnd : (cur.map (·.1)).Nodup)
    (hl : lookup cur p = some (b, la)) (hle : la + t ≤ now) :
    memSweepExpected (erase cur p) rest t now
      = memSweepExpected cur (p :: rest) t now := by
  unfold memSweepExpected erase
  rw [List.filter_filter]
  apply List.filter_congr
  intro e he
  by_cases hep : e.1 = p
  · have hme : (p, (b, la)) ∈ cur := mem_of_lookup cur p (b, la) hl
    have hee : e = (p, (b, la)) := eq_of_mem_keys_nodup cur hnd he hme (by rw [hep])
    rw [hee]
    simp [hle]
  · simp [hep, List.mem_cons]

theorem memSweepExpected_cons_live (cur : State) (p : RPath)
    (rest : List RPath) (t now la : Nat) (b : Bytes) (hnd : (cur.map (·.1)).Nodup)
    (hl : lookup cur p = some (b, la)) (hnle : ¬ la + t ≤ now) (hpr : p ∉ rest) :
    memSweepExpected cur rest t now
      = memSweepExpected cur (p :: rest) t now := by
  unfold memSweepExpected
  apply List.filter_congr
  intro e he
  by_cases hep : e.1 = p
  · have hme : (p, (b, la)) ∈ cur := mem_of_lookup cur p (b, la) hl
    have hee : e = (p, (b, la)) := eq_of_mem_keys_nodup cur hnd he hme (by rw [hep])
    rw [hee]
    simp [hnle, hpr, List.mem_cons]
  · simp [hep, List.mem_cons]

theorem sweepLoop_memory_characterized (t now : Nat) :
    ∀ (ps : List RPath) (cur : State), (cur.map (·.1)).Nodup → ps.Nodup →
      (∀ p, p ∈ ps → (lookup cur p).isSome = true) →
      (AppStorage.sweepLoop (.memory cur) ps t now).1 = .ok () ∧
      (AppStorage.sweepLoop (.memory cur) ps t now).2.1
        = .memory (memSweepExpected cur ps t now) := by
  intro ps
  induction ps with
  | nil =>
    intro cur hnd hps hpres
    refine ⟨rfl, ?_⟩
    have hex : memSweepExpected cur [] t now = cur := by
      unfold memSweepExpected
      simp
    rw [hex]
    rfl
  | cons p rest ih =>
    intro cur hnd hps hpres
    obtain ⟨⟨b, la⟩, hl⟩ :=
      Option.isSome_iff_exists.mp (hpres p (List.mem_cons_self p rest))
    have hp_rest : p ∉ rest := (List.nodup_cons.mp hps).1
    have hrest_nd : rest.Nodup := (List.nodup_cons.mp hps).2
    by_cases hle : la + t ≤ now
    · have hstep := sweepLoop_cons_expired cur p rest t now la b hl hle
      have hpres' : ∀ q, q ∈ rest → (lookup (erase cur p) q).isSome = true := by
        intro q hq
        rw [lookup_erase_ne cur p q (fun hqe => hp_rest (hqe ▸ hq))]
        exact hpres q (List.mem_cons_of_mem _ hq)
      have hih := ih (erase cur p) (keys_erase_nodup cur p hnd) hrest_nd hpres'
      refine ⟨?_, ?_⟩
      · rw [hstep]
        exact hih.1
      · rw [hstep]
        show (AppStorage.sweepLoop (.memory (erase cur p)) rest t now).2.1 = _
        rw [hih.2, memSweepExpected_erase_expired cur p rest t now la b hnd hl hle]
    · have hstep := sweepLoop_cons_live cur p rest t now la b hl hle
      have hih := ih cur hnd hrest_nd
        (fun q hq => hpres q (List.mem_cons_of_mem _ hq))
      refine ⟨?_, ?_⟩
      · rw [hstep]
        exact hih.1
      · rw [hstep]
        show (AppStorage.sweepLoop (.memory cur) rest t now).2.1 = _
        rw [hih.2, memSweepExpected_cons_live cur p rest t now la b hnd hl hle hp_rest]

end MemoryStorage

theorem listStartsWith_append_left {α : Type} [DecidableEq α] :
    ∀ (x y l : List α), listStartsWith (x ++ y) l = true → listStartsWith x l = true := by
  intro x
  induction x with
  | nil => intro y l _; rfl
  | cons a as ih =>
    intro y l h
    cases l with
    | nil => simp [listStartsWith] at h
    | cons b bs =>
      simp only [List.cons_append, listStartsWith] at h ⊢
      rw [Bool.and_eq_true] at h
      obtain ⟨h1, h2⟩ := h
      rw [h1, ih y bs h2]
      rfl

theorem listStartsWith_append_drop {α : Type} [DecidableEq α] :
    ∀ (pre l : List α), listStartsWith pre l = true → pre ++ l.drop pre.length = l := by
  intro pre
  induction pre with
  | nil => intro l _; rfl
  | cons a as ih =>
    intro l h
    cases l with
    | nil => simp [listStartsWith] at h
    | cons b bs =>
      simp only [listStartsWith] at h
      rw [Bool.and_eq_true] at h
      obtain ⟨h1, h2⟩ := h
      have hab : a = b := of_decide_eq_true h1
      simp only [List.cons_append, List.length_cons, List.drop_succ_cons]
      rw [ih bs h2, hab]

theorem filterMap_normalName_map (xs : List String) :
    (xs.map PathComp.normal).filterMap FilesystemStorage.normalName = xs := by
  induction xs with
  | nil => rfl
  | cons a as ih => simp [FilesystemStorage.normalName, ih]

theorem validRPath_map_normal (xs : List String) :
    validRPath (xs.map PathComp.normal) = true := by
  induction xs with
  | nil => rfl
  | cons a as _ => simp [validRPath]

theorem resolveJoin_valid :
    ∀ (p : RPath) (base : List String), validRPath p = true →
      FilesystemStorage.resolveJoin base p
        = base ++ p.filterMap FilesystemStorage.normalName := by
  intro p
  induction p with
  | nil => intro base _; simp [FilesystemStorage.resolveJoin]
  | cons c rest ih =>
    intro base h
    cases c with
    | normal s =>
      have hrest : validRPath rest = true := by
        simp only [validRPath, List.all_cons, Bool.and_eq_true] at h
        exact h.2
      have hstep : FilesystemStorage.resolveJoin base (.normal s :: rest)
          = FilesystemStorage.resolveJoin (base ++ [s]) rest := by
        simp [FilesystemStorage.resolveJoin]
      rw [hstep, ih (base ++ [s]) hrest]
      simp [FilesystemStorage.normalName]
    | parentDir => simp [validRPath] at h
    | rootDir => simp [validRPath] at h

namespace FilesystemStorage

theorem fileLookup_erase_ne (files : List (List String × Bytes × Nat))
    (k q : List String) (h : q ≠ k) :
    fileLookup (fileErase files k) q = fileLookup files q := by
  induction files with
  | nil => rfl
  | cons a rest ih =>
    unfold fileLookup fileErase at *
    by_cases hak : a.1 = k
    · rw [List.filter_cons_of_neg (by simp [hak])]
      rw [List.find?_cons_of_neg _
        (by simp only [decide_eq_true_eq]; rw [hak]; exact fun hq => h hq.symm)]
      exact ih
    · rw [List.filter_cons_of_pos (by simp [hak])]
      by_cases haq : a.1 = q
      · rw [List.find?_cons_of_pos _ (by simp [haq]),
          List.find?_cons_of_pos _ (by simp [haq])]
      · rw [List.find?_cons_of_neg _ (by simp [haq]),
          List.find?_cons_of_neg _ (by simp [haq])]
        exact ih

theorem mem_of_fileLookup (files : List (List String × Bytes × Nat))
    (k : List String) (v : Bytes × Nat) (h : fileLookup files k = some v) :
    (k, v) ∈ files := by
  induction files with
  | nil => simp [fileLookup] at h
  | cons a rest ih =>
    unfold fileLookup at h
    by_cases hak : a.1 = k
    · rw [List.find?_cons_of_pos _ (by simp [hak])] at h
      simp at h
      have hae : a = (k, v) := by
        cases a with
        | mk a1 a2 => simp at hak h; rw [hak, h]
      exact List.mem_cons.mpr (Or.inl hae.symm)
    · rw [List.find?_cons_of_neg _ (by simp [hak])] at h
      exact List.mem_cons_of_mem _ (ih h)

theorem fileLookup_isSome_of_key_mem (files : List (List String × Bytes × Nat))
    (k : List String) (h : k ∈ files.map (·.1)) :
    (fileLookup files k).isSome := by
  induction files with
  | nil => simp at h
  | cons a rest ih =>
    unfold fileLookup
    by_cases hak : a.1 = k
    · rw [List.find?_cons_of_pos _ (by simp [hak])]
      rfl
    · rw [List.find?_cons_of_neg _ (by simp [hak])]
      apply ih
      simp at h
      rcases h with h | h
      · exact absurd h.symm hak
      · simpa using h

theorem fs_eq_of_mem_keys_nodup (files : List (List String × Bytes × Nat))
    (hnd : (files.map (·.1)).Nodup)
    {e f : List String × Bytes × Nat} (he : e ∈ files) (hf : f ∈ files)
    (hk : e.1 = f.1) : e = f := by
  induction files with
  | nil => simp at he
  | cons a rest ih =>
    simp only [List.map_cons, List.nodup_cons] at hnd
    rcases List.mem_cons.mp he with rfl | he'
    · rcases List.mem_cons.mp hf with rfl | hf'
      · rfl
      · exact absurd (hk ▸ List.mem_map_of_mem (·.1) hf') hnd.1
    · rcases List.mem_cons.mp hf with rfl | hf'
      · exact absurd (hk ▸ List.mem_map_of_mem (·.1) he') hnd.1
      · exact ih hnd.2 he' hf'

theorem fileLookup_filter_of_pass (files : List (List String × Bytes × Nat))
    (k : List String) (v : Bytes × Nat)
    (f : List String × Bytes × Nat → Bool) (hl : fileLookup files k = some v)
    (hf : f (k, v) = true) :
    fileLookup (files.filter f) k = some v := by
  induction files with
  | nil => simp [fileLookup] at hl
  | cons a rest ih =>
    unfold fileLookup at *
    by_cases hak : a.1 = k
    · rw [List.find?_cons_of_pos _ (by simp [hak])] at hl
      simp at hl
      have hae : a = (k, v) := by
        cases a with
        | mk a1 a2 => simp at hak hl; rw [hak, hl]
      rw [List.filter_cons_of_pos (by rw [hae]; exact hf)]
      rw [List.find?_cons_of_pos _ (by simp [hak])]
      simp [hl]
    · rw [List.find?_cons_of_neg _ (by simp [hak])] at hl
      by_cases hfa : f a = true
      · rw [List.filter_cons_of_pos hfa]
        rw [List.find?_cons_of_neg _ (by simp [hak])]
        exact ih hl
      · rw [List.filter_cons_of_neg (by simp [hfa])]
        exact ih hl

theorem file_keys_erase_nodup (files : List (List String × Bytes × Nat))
    (k : List String) (hnd : (files.map (·.1)).Nodup) :
    ((fileErase files k).map (·.1)).Nodup :=
  List.Nodup.sublist ((List.filter_sublist files).map (·.1)) hnd

theorem fs_is_upload_expired (base : List String)
    (files : List (List String × Bytes × Nat)) (p : RPath) (t now la : Nat)
    (b : Bytes) (hval : validRPath p = true)
    (hl : fileLookup files (absKeyOf base p) = some (b, la)) :
    AppStorage.is_upload_expired (.filesystem ⟨base, files⟩) p t now
      = (.ok (decide (la + t ≤ now)), [.lastAccessCall p]) := by
  have hjoin := join_to_base_ok_of_valid ⟨base, files⟩ p hval
  unfold AppStorage.is_upload_expired
  unfold absKeyOf at hl
  simp [StorageProvider.supports_expiry, StorageProvider.last_access,
    last_access, hjoin, hl]

theorem fs_sweepLoop_cons_expired (base : List String)
    (files : List (List String × Bytes × Nat)) (p : RPath) (rest : List RPath)
    (t now la : Nat) (b : Bytes) (hval : validRPath p = true)
    (hl : fileLookup files (absKeyOf base p) = some (b, la)) (hle : la + t ≤ now) :
    AppStorage.sweepLoop (.filesystem ⟨base, files⟩) (p :: rest) t now
      = ((AppStorage.sweepLoop
            (.filesystem ⟨base, fileErase files (absKeyOf base p)⟩) rest t now).1,
         (AppStorage.sweepLoop
            (.filesystem ⟨base, fileErase files (absKeyOf base p)⟩) rest t now).2.1,
         .lastAccessCall p :: .deleteCall p ::
           (AppStorage.sweepLoop
              (.filesystem ⟨base, fileErase files (absKeyOf base p)⟩) rest t now).2.2) := by
  have hie := fs_is_upload_expired base files p t now la b hval hl
  rw [decide_eq_true hle] at hie
  have hdel : StorageProvider.delete (.filesystem ⟨base, files⟩) p
      = (.ok true, .filesystem ⟨base, fileErase files (absKeyOf base p)⟩) := by
    have hjoin := join_to_base_ok_of_valid ⟨base, files⟩ p hval
    unfold absKeyOf at hl ⊢
    simp [StorageProvider.delete, delete, hjoin, hl]
  simp only [AppStorage.sweepLoop, hie, hdel]
  simp

theorem fs_sweepLoop_cons_live (base : List String)
    (files : List (List String × Bytes × Nat)) (p : RPath) (rest : List RPath)
    (t now la : Nat) (b : Bytes) (hval : validRPath p = true)
    (hl : fileLookup files (absKeyOf base p) = some (b, la)) (hnle : ¬ la + t ≤ now) :
    AppStorage.sweepLoop (.filesystem ⟨base, files⟩) (p :: rest) t now
      = ((AppStorage.sweepLoop (.filesystem ⟨base, files⟩) rest t now).1,
         (AppStorage.sweepLoop (.filesystem ⟨base, files⟩) rest t now).2.1,
         .lastAccessCall p ::
           (AppStorage.sweepLoop (.filesystem ⟨base, files⟩) rest t now).2.2) := by
  have hie := fs_is_upload_expired base files p t now la b hval hl
  rw [decide_eq_false hnle] at hie
  simp only [AppStorage.sweepLoop, hie]
  simp

theorem fsSweepExpected_erase_expired (base : List String)
    (files : List (List String × Bytes × Nat)) (p : RPath) (rest : List RPath)
    (t now la : Nat) (b : Bytes) (hnd : (files.map (·.1)).Nodup)
    (hl : fileLookup files (absKeyOf base p) = some (b, la)) (hle : la + t ≤ now) :
    fsSweepExpected (fileErase files (absKeyOf base p)) base rest t now
      = fsSweepExpected files base (p :: rest) t now := by
  unfold fsSweepExpected fileErase
  rw [List.filter_filter]
  apply List.filter_congr
  intro e he
  by_cases hep : e.1 = absKeyOf base p
  · have hme : (absKeyOf base p, (b, la)) ∈ files :=
      mem_of_fileLookup files (absKeyOf base p) (b, la) hl
    have hee : e = (absKeyOf base p, (b, la)) :=
      fs_eq_of_mem_keys_nodup files hnd he hme (by rw [hep])
    rw [hee]
    simp [hle]
  · simp [hep, List.mem_cons]

theorem fsSweepExpected_cons_live (base : List String)
    (files : List (List String × Bytes × Nat)) (p : RPath) (rest : List RPath)
    (t now la : Nat) (b : Bytes) (hnd : (files.map (·.1)).Nodup)
    (hl : fileLookup files (absKeyOf base p) = some (b, la)) (hnle : ¬ la + t ≤ now)
    (hpr : absKeyOf base p ∉ rest.map (absKeyOf base)) :
    fsSweepExpected files base rest t now
      = fsSweepExpected files base (p :: rest) t now := by
  unfold fsSweepExpected
  apply List.filter_congr
  intro e he
  by_cases hep : e.1 = absKeyOf base p
  · have hme : (absKeyOf base p, (b, la)) ∈ files :=
      mem_of_fileLookup files (absKeyOf base p) (b, la) hl
    have hee : e = (absKeyOf base p, (b, la)) :=
      fs_eq_of_mem_keys_nodup files hnd he hme (by rw [hep])
    rw [hee]
    simp [hnle, hpr, List.mem_cons]
  · simp [hep, List.mem_cons]

theorem fs_sweepLoop_characterized (t now : Nat) (base : List String) :
    ∀ (ps : List RPath) (files : List (List String × Bytes × Nat)),
      (files.map (·.1)).Nodup →
      (ps.map (absKeyOf base)).Nodup →
      (∀ p, p ∈ ps → validRPath p = true) →
      (∀ p, p ∈ ps → (fileLookup files (absKeyOf base p)).isSome = true) →
      (AppStorage.sweepLoop (.filesystem ⟨base, files⟩) ps t now).1 = .ok () ∧
      (AppStorage.sweepLoop (.filesystem ⟨base, files⟩) ps t now).2.1
        = .filesystem ⟨base, fsSweepExpected files base ps t now⟩ := by
  intro ps
  induction ps with
  | nil =>
    intro files hnd hps hval hpres
    refine ⟨rfl, ?_⟩
    have hex : fsSweepExpected files base [] t now = files := by
      unfold fsSweepExpected
      simp
    rw [hex]
    rfl
  | cons p rest ih =>
    intro files hnd hps hval hpres
    obtain ⟨⟨b, la⟩, hl⟩ :=
      Option.isSome_iff_exists.mp (hpres p (List.mem_cons_self p rest))
    have hvp : validRPath p = true := hval p (List.mem_cons_self p rest)
    have hkey_nodup := hps
    rw [List.map_cons, List.nodup_cons] at hkey_nodup
    have hp_rest : absKeyOf base p ∉ rest.map (absKeyOf base) := hkey_nodup.1
    have hrest_nd : (rest.map (absKeyOf base)).Nodup := hkey_nodup.2
    have hval' : ∀ q, q ∈ rest → validRPath q = true :=
      fun q hq => hval q (List.mem_cons_of_mem _ hq)
    by_cases hle : la + t ≤ now
    · have hstep := fs_sweepLoop_cons_expired base files p rest t now la b hvp hl hle
      have hpres' : ∀ q, q ∈ rest →
          (fileLookup (fileErase files (absKeyOf base p)) (absKeyOf base q)).isSome
            = true := by
        intro q hq
        rw [fileLookup_erase_ne files (absKeyOf base p) (absKeyOf base q)
          (fun hqe => hp_rest (hqe ▸ List.mem_map_of_mem (absKeyOf base) hq))]
        exact hpres q (List.mem_cons_of_mem _ hq)
      have hih := ih (fileErase files (absKeyOf base p))
        (file_keys_erase_nodup files (absKeyOf base p) hnd) hrest_nd hval' hpres'
      refine ⟨?_, ?_⟩
      · rw [hstep]
        exact hih.1
      · rw [hstep]
        show (AppStorage.sweepLoop
          (.filesystem ⟨base, fileErase files (absKeyOf base p)⟩) rest t now).2.1 = _
        rw [hih.2, fsSweepExpected_erase_expired base files p rest t now la b hnd hl hle]
    · have hstep := fs_sweepLoop_cons_live base files p rest t now la b hvp hl hle
      have hih := ih files hnd hrest_nd hval'
        (fun q hq => hpres q (List.mem_cons_of_mem _ hq))
      refine ⟨?_, ?_⟩
      · rw [hstep]
        exact hih.1
      · rw [hstep]
        show (AppStorage.sweepLoop (.filesystem ⟨base, files⟩) rest t now).2.1 = _
        rw [hih.2,
          fsSweepExpected_cons_live base files p rest t now la b hnd hl hle hp_rest]

end FilesystemStorage

/-- C7: on both expiry-capable backends (Memory and Filesystem), one sweep
run succeeds and its final state keeps exactly the entries that are not (an
upload-namespace entry whose `last_access + expire_after <= now` held at
the check): every expired listed upload is deleted, and an upload accessed
within the window is untouched and still readable afterwards.  For the
Filesystem backend the listed uploads are the direct children of the
uploads directory under the base. -/
theorem c7_sweep_deletes_exactly_expired (m : MemoryStorage.State)
    (f : FilesystemStorage.State) (t now now2 : Nat)
    (hnd : (m.map (·.1)).Nodup) (hfnd : (f.files.map (·.1)).Nodup) :
    (AppStorage.remove_all_expired_uploads (.memory m) t now).1 = .ok () ∧
    (AppStorage.remove_all_expired_uploads (.memory m) t now).2.1
      = .memory (m.filter (fun e =>
          !(listStartsWith AppStorage.upload_path e.1 && decide (e.2.2 + t ≤ now)))) ∧
    (∀ p b la, MemoryStorage.lookup m p = some (b, la) →
      listStartsWith AppStorage.upload_path p = true → ¬ (la + t ≤ now) →
      (StorageProvider.read
        ((AppStorage.remove_all_expired_uploads (.memory m) t now).2.1) p now2).1
        = .ok (some b)) ∧
    (AppStorage.remove_all_expired_uploads (.filesystem f) t now).1 = .ok () ∧
    (AppStorage.remove_all_expired_uploads (.filesystem f) t now).2.1
      = .filesystem ⟨f.base, f.files.filter (fun e =>
          !((listStartsWith (f.base ++ ["uploads"]) e.1
              && decide (e.1.length = (f.base ++ ["uploads"]).length + 1))
            && decide (e.2.2 + t ≤ now)))⟩ ∧
    ∀ p b la, validRPath p = true →
      FilesystemStorage.fileLookup f.files (absKeyOf f.base p) = some (b, la) →
      ¬ (la + t ≤ now) →
      (StorageProvider.read
        ((AppStorage.remove_all_expired_uploads (.filesystem f) t now).2.1) p now2).1
        = .ok (some b) := by
  obtain ⟨base, files⟩ := f
  have hred : AppStorage.remove_all_expired_uploads (.memory m) t now
      = ((AppStorage.sweepLoop (.memory m)
            (MemoryStorage.list m AppStorage.upload_path) t now).1,
         (AppStorage.sweepLoop (.memory m)
            (MemoryStorage.list m AppStorage.upload_path) t now).2.1,
         .listCall AppStorage.upload_path ::
           (AppStorage.sweepLoop (.memory m)
              (MemoryStorage.list m AppStorage.upload_path) t now).2.2) := by
    unfold AppStorage.remove_all_expired_uploads
    simp [StorageProvider.supports_expiry, StorageProvider.list]
  have hpsnd : (MemoryStorage.list m AppStorage.upload_path).Nodup := by
    unfold MemoryStorage.list
    exact List.Nodup.sublist ((List.filter_sublist m).map (·.1)) hnd
  have hpres : ∀ p, p ∈ MemoryStorage.list m AppStorage.upload_path →
      (MemoryStorage.lookup m p).isSome = true := by
    intro p hp
    unfold MemoryStorage.list at hp
    obtain ⟨e, he, hep⟩ := List.mem_map.mp hp
    have hem : e ∈ m := List.mem_of_mem_filter he
    apply MemoryStorage.lookup_isSome_of_key_mem
    rw [← hep]
    exact List.mem_map_of_mem (·.1) hem
  have hchar := MemoryStorage.sweepLoop_memory_characterized t now
    (MemoryStorage.list m AppStorage.upload_path) m hnd hpsnd hpres
  have hset : memSweepExpected m (MemoryStorage.list m AppStorage.upload_path) t now
      = m.filter (fun e =>
          !(listStartsWith AppStorage.upload_path e.1 && decide (e.2.2 + t ≤ now))) := by
    unfold memSweepExpected
    apply List.filter_congr
    intro e he
    have hmem : decide (e.1 ∈ MemoryStorage.list m AppStorage.upload_path)
        = listStartsWith AppStorage.upload_path e.1 := by
      cases hsw : listStartsWith AppStorage.upload_path e.1 with
      | true =>
        apply decide_eq_true
        unfold MemoryStorage.list
        exact List.mem_map.mpr ⟨e, List.mem_filter.mpr ⟨he, hsw⟩, rfl⟩
      | false =>
        apply decide_eq_false
        intro hmem
        unfold MemoryStorage.list at hmem
        obtain ⟨f, hf, hfe⟩ := List.mem_map.mp hmem
        have hfm : f ∈ m := List.mem_of_mem_filter hf
        have hfpred : listStartsWith AppStorage.upload_path f.1 = true :=
          (List.mem_filter.mp hf).2
        have hfeq : f = e := MemoryStorage.eq_of_mem_keys_nodup m hnd hfm he hfe
        rw [hfeq, hsw] at hfpred
        exact Bool.noConfusion hfpred
    rw [hmem]
  have hlist : FilesystemStorage.list ⟨base, files⟩ AppStorage.upload_path
      = .ok ((files.filter (fun e => listStartsWith (base ++ ["uploads"]) e.1
          && decide (e.1.length = (base ++ ["uploads"]).length + 1))).map
          (fun e => (e.1.drop base.length).map PathComp.normal)) := rfl
  have hfred : AppStorage.remove_all_expired_uploads (.filesystem ⟨base, files⟩) t now
      = ((AppStorage.sweepLoop (.filesystem ⟨base, files⟩)
            ((files.filter (fun e => listStartsWith (base ++ ["uploads"]) e.1
              && decide (e.1.length = (base ++ ["uploads"]).length + 1))).map
              (fun e => (e.1.drop base.length).map PathComp.normal)) t now).1,
         (AppStorage.sweepLoop (.filesystem ⟨base, files⟩)
            ((files.filter (fun e => listStartsWith (base ++ ["uploads"]) e.1
              && decide (e.1.length = (base ++ ["uploads"]).length + 1))).map
              (fun e => (e.1.drop base.length).map PathComp.normal)) t now).2.1,
         .listCall AppStorage.upload_path ::
           (AppStorage.sweepLoop (.filesystem ⟨base, files⟩)
              ((files.filter (fun e => listStartsWith (base ++ ["uploads"]) e.1
                && decide (e.1.length = (base ++ ["uploads"]).length + 1))).map
                (fun e => (e.1.drop base.length).map PathComp.normal)) t now).2.2) := by
    unfold AppStorage.remove_all_expired_uploads
    simp [StorageProvider.supports_expiry, StorageProvider.list, hlist]
  have factA : ∀ e : List String × Bytes × Nat,
      (listStartsWith (base ++ ["uploads"]) e.1
        && decide (e.1.length = (base ++ ["uploads"]).length + 1)) = true →
      absKeyOf base ((e.1.drop base.length).map PathComp.normal) = e.1 := by
    intro e hcp
    rw [Bool.and_eq_true] at hcp
    unfold absKeyOf
    rw [filterMap_normalName_map]
    exact listStartsWith_append_drop base e.1
      (listStartsWith_append_left base ["uploads"] e.1 hcp.1)
  have habs : ((files.filter (fun e => listStartsWith (base ++ ["uploads"]) e.1
        && decide (e.1.length = (base ++ ["uploads"]).length + 1))).map
        (fun e => (e.1.drop base.length).map PathComp.normal)).map (absKeyOf base)
      = (files.filter (fun e => listStartsWith (base ++ ["uploads"]) e.1
          && decide (e.1.length = (base ++ ["uploads"]).length + 1))).map (·.1) := by
    rw [List.map_map]
    apply List.map_congr_left
    intro e he
    exact factA e (List.mem_filter.mp he).2
  have hLnd : (((files.filter (fun e => listStartsWith (base ++ ["uploads"]) e.1
        && decide (e.1.length = (base ++ ["uploads"]).length + 1))).map
        (fun e => (e.1.drop base.length).map PathComp.normal)).map (absKeyOf base)).Nodup := by
    rw [habs]
    exact List.Nodup.sublist ((List.filter_sublist files).map (·.1)) hfnd
  have hvalL : ∀ p, p ∈ (files.filter (fun e => listStartsWith (base ++ ["uploads"]) e.1
        && decide (e.1.length = (base ++ ["uploads"]).length + 1))).map
        (fun e => (e.1.drop base.length).map PathComp.normal) → validRPath p = true := by
    intro p hp
    obtain ⟨e, _, hep⟩ := List.mem_map.mp hp
    rw [← hep]
    exact validRPath_map_normal _
  have hpresL : ∀ p, p ∈ (files.filter (fun e => listStartsWith (base ++ ["uploads"]) e.1
        && decide (e.1.length = (base ++ ["uploads"]).length + 1))).map
        (fun e => (e.1.drop base.length).map PathComp.normal) →
      (FilesystemStorage.fileLookup files (absKeyOf base p)).isSome = true := by
    intro p hp
    obtain ⟨e, he, hep⟩ := List.mem_map.mp hp
    have hem : e ∈ files := (List.mem_filter.mp he).1
    have hcp := (List.mem_filter.mp he).2
    rw [← hep, factA e hcp]
    apply FilesystemStorage.fileLookup_isSome_of_key_mem
    exact List.mem_map_of_mem (·.1) hem
  have hfchar := FilesystemStorage.fs_sweepLoop_characterized t now base
    ((files.filter (fun e => listStartsWith (base ++ ["uploads"]) e.1
      && decide (e.1.length = (base ++ ["uploads"]).length + 1))).map
      (fun e => (e.1.drop base.length).map PathComp.normal)) files hfnd hLnd hvalL hpresL
  have hfset : fsSweepExpected files base
      ((files.filter (fun e => listStartsWith (base ++ ["uploads"]) e.1
        && decide (e.1.length = (base ++ ["uploads"]).length + 1))).map
        (fun e => (e.1.drop base.length).map PathComp.normal)) t now
      = files.filter (fun e =>
          !((listStartsWith (base ++ ["uploads"]) e.1
              && decide (e.1.length = (base ++ ["uploads"]).length + 1))
            && decide (e.2.2 + t ≤ now))) := by
    unfold fsSweepExpected
    apply List.filter_congr
    intro e he
    have hmem : decide (e.1 ∈ ((files.filter (fun e =>
          listStartsWith (base ++ ["uploads"]) e.1
          && decide (e.1.length = (base ++ ["uploads"]).length + 1))).map
          (fun e => (e.1.drop base.length).map PathComp.normal)).map (absKeyOf base))
        = (listStartsWith (base ++ ["uploads"]) e.1
            && decide (e.1.length = (base ++ ["uploads"]).length + 1)) := by
      rw [habs]
      cases hcp : (listStartsWith (base ++ ["uploads"]) e.1
          && decide (e.1.length = (base ++ ["uploads"]).length + 1)) with
      | true =>
        apply decide_eq_true
        exact List.mem_map.mpr ⟨e, List.mem_filter.mpr ⟨he, hcp⟩, rfl⟩
      | false =>
        apply decide_eq_false
        intro hmm
        obtain ⟨e2, he2, he2e⟩ := List.mem_map.mp hmm
        have he2f : e2 ∈ files := (List.mem_filter.mp he2).1
        have hcp2 := (List.mem_filter.mp he2).2
        have he2eq : e2 = e :=
          FilesystemStorage.fs_eq_of_mem_keys_nodup files hfnd he2f he he2e
        rw [he2eq, hcp] at hcp2
        exact Bool.noConfusion hcp2
    rw [hmem]
  have hreadgen : ∀ (fl : List (List String × Bytes × Nat)) (p : RPath)
      (b : Bytes) (la : Nat), validRPath p = true →
      FilesystemStorage.fileLookup fl (absKeyOf base p) = some (b, la) →
      (StorageProvider.read (.filesystem ⟨base, fl⟩) p now2).1 = .ok (some b) := by
    intro fl p b la hvp hl2
    have h1 : (FilesystemStorage.read ⟨base, fl⟩ p now2).1 = .ok (some b) := by
      simp only [FilesystemStorage.read]
      rw [resolveJoin_valid p base hvp]
      unfold absKeyOf at hl2
      rw [hl2]
    rcases hX : FilesystemStorage.read ⟨base, fl⟩ p now2 with ⟨r, f2⟩
    rw [hX] at h1
    simp only [StorageProvider.read, hX]
    exact h1
  refine ⟨?_, ?_, ?_, ?_, ?_, ?_⟩
  · rw [hred]
    exact hchar.1
  · rw [hred]
    show (AppStorage.sweepLoop (.memory m)
      (MemoryStorage.list m AppStorage.upload_path) t now).2.1 = _
    rw [hchar.2, hset]
  · intro p b la hl hsw hnle
    rw [hred]
    show (StorageProvider.read ((AppStorage.sweepLoop (.memory m)
      (MemoryStorage.list m AppStorage.upload_path) t now).2.1) p now2).1 = _
    rw [hchar.2, hset]
    have hlf : MemoryStorage.lookup (m.filter (fun e =>
        !(listStartsWith AppStorage.upload_path e.1 && decide (e.2.2 + t ≤ now)))) p
        = some (b, la) := by
      apply MemoryStorage.lookup_filter_of_pass m p (b, la) _ hl
      simp [hsw, hnle]
    have hread : MemoryStorage.read (m.filter (fun e =>
        !(listStartsWith AppStorage.upload_path e.1 && decide (e.2.2 + t ≤ now)))) p now2
        = (some b, MemoryStorage.setAccessTime (m.filter (fun e =>
            !(listStartsWith AppStorage.upload_path e.1 && decide (e.2.2 + t ≤ now)))) p now2) := by
      unfold MemoryStorage.read
      rw [hlf]
    simp only [StorageProvider.read, hread]
  · rw [hfred]
    exact hfchar.1
  · rw [hfred, hfchar.2, hfset]
  · intro p b la hvp hl hnle
    rw [hfred, hfchar.2, hfset]
    exact hreadgen _ p b la hvp
      (FilesystemStorage.fileLookup_filter_of_pass files (absKeyOf base p) (b, la) _ hl
        (by simp [hnle]))

/-- Witness for C7: on each expiry-capable backend, a state with an expired
upload, a fresh upload and a non-upload entry; the sweep deletes exactly
the expired upload, and the fresh one is still readable. -/
theorem c7_sweep_deletes_exactly_expired_witness :
    (([([PathComp.normal "uploads", PathComp.normal "old"], ([1], 0)),
       ([PathComp.normal "uploads", PathComp.normal "new"], ([2], 100)),
       ([PathComp.normal "other"], ([3], 0))] : MemoryStorage.State).map (·.1)).Nodup ∧
    ((⟨["data"], [(["data", "uploads", "old"], ([1], 0)),
        (["data", "uploads", "new"], ([2], 100)),
        (["data", "other"], ([3], 0))]⟩ : FilesystemStorage.State).files.map (·.1)).Nodup ∧
    (AppStorage.remove_all_expired_uploads
      (.memory [([PathComp.normal "uploads", PathComp.normal "old"], ([1], 0)),
       ([PathComp.normal "uploads", PathComp.normal "new"], ([2], 100)),
       ([PathComp.normal "other"], ([3], 0))]) 10 50).1 = .ok () ∧
    (AppStorage.remove_all_expired_uploads
      (.memory [([PathComp.normal "uploads", PathComp.normal "old"], ([1], 0)),
       ([PathComp.normal "uploads", PathComp.normal "new"], ([2], 100)),
       ([PathComp.normal "other"], ([3], 0))]) 10 50).2.1
      = .memory [([PathComp.normal "uploads", PathComp.normal "new"], ([2], 100)),
       ([PathComp.normal "other"], ([3], 0))] ∧
    (StorageProvider.read
      ((AppStorage.remove_all_expired_uploads
        (.memory [([PathComp.normal "uploads", PathComp.normal "old"], ([1], 0)),
         ([PathComp.normal "uploads", PathComp.normal "new"], ([2], 100)),
         ([PathComp.normal "other"], ([3], 0))]) 10 50).2.1)
      [PathComp.normal "uploads", PathComp.normal "new"] 77).1 = .ok (some [2]) ∧
    (AppStorage.remove_all_expired_uploads
      (.filesystem ⟨["data"], [(["data", "uploads", "old"], ([1], 0)),
        (["data", "uploads", "new"], ([2], 100)),
        (["data", "other"], ([3], 0))]⟩) 10 50).1 = .ok () ∧
    (AppStorage.remove_all_expired_uploads
      (.filesystem ⟨["data"], [(["data", "uploads", "old"], ([1], 0)),
        (["data", "uploads", "new"], ([2], 100)),
        (["data", "other"], ([3], 0))]⟩) 10 50).2.1
      = .filesystem ⟨["data"], [(["data", "uploads", "new"], ([2], 100)),
        (["data", "other"], ([3], 0))]⟩ ∧
    (StorageProvider.read
      ((AppStorage.remove_all_expired_uploads
        (.filesystem ⟨["data"], [(["data", "uploads", "old"], ([1], 0)),
          (["data", "uploads", "new"], ([2], 100)),
          (["data", "other"], ([3], 0))]⟩) 10 50).2.1)
      [PathComp.normal "uploads", PathComp.normal "new"] 77).1 = .ok (some [2]) :=
  ⟨by decide, by decide,
    (c7_sweep_deletes_exactly_expired [([PathComp.normal "uploads", PathComp.normal "old"], ([1], 0)),
       ([PathComp.normal "uploads", PathComp.normal "new"], ([2], 100)),
       ([PathComp.normal "other"], ([3], 0))] (⟨["data"], [(["data", "uploads", "old"], ([1], 0)),
        (["data", "uploads", "new"], ([2], 100)),
        (["data", "other"], ([3], 0))]⟩ : FilesystemStorage.State) 10 50 77 (by decide) (by decide)).1,
    by rw [(c7_sweep_deletes_exactly_expired _
        (⟨["data"], [(["data", "uploads", "old"], ([1], 0)),
          (["data", "uploads", "new"], ([2], 100)),
          (["data", "other"], ([3], 0))]⟩ : FilesystemStorage.State)
        10 50 77 (by decide) (by decide)).2.1]; exact rfl,
    (c7_sweep_deletes_exactly_expired [([PathComp.normal "uploads", PathComp.normal "old"], ([1], 0)),
       ([PathComp.normal "uploads", PathComp.normal "new"], ([2], 100)),
       ([PathComp.normal "other"], ([3], 0))] (⟨["data"], [(["data", "uploads", "old"], ([1], 0)),
        (["data", "uploads", "new"], ([2], 100)),
        (["data", "other"], ([3], 0))]⟩ : FilesystemStorage.State) 10 50 77 (by decide) (by decide)).2.2.1
      [PathComp.normal "uploads", PathComp.normal "new"] [2] 100 rfl rfl (by decide),
    (c7_sweep_deletes_exactly_expired ([] : MemoryStorage.State)
      (⟨["data"], [(["data", "uploads", "old"], ([1], 0)),
        (["data", "uploads", "new"], ([2], 100)),
        (["data", "other"], ([3], 0))]⟩ : FilesystemStorage.State) 10 50 77 (by decide) (by decide)).2.2.2.1,
    by rw [(c7_sweep_deletes_exactly_expired ([] : MemoryStorage.State)
        (⟨["data"], [(["data", "uploads", "old"], ([1], 0)),
          (["data", "uploads", "new"], ([2], 100)),
          (["data", "other"], ([3], 0))]⟩ : FilesystemStorage.State)
        10 50 77 (by decide) (by decide)).2.2.2.2.1]; exact rfl,
    (c7_sweep_deletes_exactly_expired ([] : MemoryStorage.State)
      (⟨["data"], [(["data", "uploads", "old"], ([1], 0)),
        (["data", "uploads", "new"], ([2], 100)),
        (["data", "other"], ([3], 0))]⟩ : FilesystemStorage.State) 10 50 77 (by decide) (by decide)).2.2.2.2.2
      [PathComp.normal "uploads", PathComp.normal "new"] [2] 100 rfl rfl (by decide)⟩
